import Mathlib

/-!
Verification of the DependencyInjection registry (src/index.ts).

The registry is shallowly embedded: JavaScript values are modelled by
`JSValue` (with `Option JSValue` standing for possibly-undefined slots),
the registry object by `DI`, resolver callbacks by numeric identities
into a shared mutable store (`Nat → Resolver`), and every callback
invocation is recorded as an `Event` in a trace returned alongside the
new state.  `register`, `resolve` and `inject` follow the source line by
line; `Assert.ok` failures are modelled with `Except.error`.
-/

set_option maxHeartbeats 1000000

namespace DepInj

/-- A JavaScript value as used by the registry.  `undefined` is not a
`JSValue`; an absent/undefined slot is `(none : Option JSValue)`. -/
inductive JSValue where
  | vnull
  | vbool (b : Bool)
  | vnum (n : Int)
  | vstr (s : String)
deriving Repr, DecidableEq

/-- Model of `JSON.stringify` on the primitive values of our value
grammar, used by `register` for its deep-equality check. -/
def jsonStringify : JSValue → String
  | JSValue.vnull => "null"
  | JSValue.vbool true => "true"
  | JSValue.vbool false => "false"
  | JSValue.vnum n => toString n
  | JSValue.vstr s => "\"" ++ s ++ "\""

/-- The mutable fields the source attaches to a resolver function:
`resolver.dependencies` (undefined until the first `resolve` call sets
it) and `resolver.is_resolved` (falsy by default). -/
structure Resolver where
  dependencies : Option (List String)
  is_resolved : Bool
deriving Repr, DecidableEq

/-- One invocation of a resolver callback: which callback (`rid`), the
positional arguments, and the name-keyed mapping bound as the call's
`this` context. -/
structure Event where
  rid : Nat
  args : List JSValue
  ctx : List (String × JSValue)
deriving Repr, DecidableEq

/-- The state of a `DependencyInjection` instance: `dependencies` maps a
name to its registered value (`none` = never registered), `dependants`
maps a name to the list of resolver identities pending on it, and
`resolvers` is the shared store of resolver objects. -/
structure DI where
  dependencies : String → Option JSValue
  dependants : String → List Nat
  resolvers : Nat → Resolver

/-- A freshly constructed registry (`new DependencyInjection()`). -/
def DI.empty : DI :=
  { dependencies := fun _ => none
    dependants := fun _ => []
    resolvers := fun _ => ⟨none, false⟩ }

/-- The value the inject loop sees for one required name:
`this.dependencies[n]` filtered through the `!= null` check (both
`undefined` and `null` are skipped). -/
def presentValue (dm : String → Option JSValue) (n : String) : Option JSValue :=
  match dm n with
  | some v => if v = JSValue.vnull then none else some v
  | none => none

/-- The `resolver_dependencies` array built by `inject` for one
resolver: the present (non-null, non-undefined) values of its required
names, in order, absent ones skipped. -/
def collectArgs (dm : String → Option JSValue) (ds : List String) : List JSValue :=
  ds.filterMap (presentValue dm)

/-- The `resolver_context` mapping built by `inject` alongside
`resolver_dependencies`. -/
def collectCtx (dm : String → Option JSValue) (ds : List String) : List (String × JSValue) :=
  ds.filterMap (fun n => (presentValue dm n).map (fun v => (n, v)))

/-- The inner loop of `inject` for one dependency name: walk the
snapshot list of pending resolver identities, skipping (but marking for
removal) already-resolved ones, and invoking (marking resolved and for
removal) any resolver all of whose required names have present values.
Returns the updated resolver store, the `resolved` list, and the trace
of invocations in order. -/
def injectResolvers (dm : String → Option JSValue) (store : Nat → Resolver) :
    List Nat → (Nat → Resolver) × List Nat × List Event
  | [] => (store, [], [])
  | rid :: rest =>
    if (store rid).is_resolved then
      let out := injectResolvers dm store rest
      (out.1, rid :: out.2.1, out.2.2)
    else
      match (store rid).dependencies with
      | none => injectResolvers dm store rest
      | some ds =>
        if (collectArgs dm ds).length = ds.length then
          let store1 : Nat → Resolver :=
            fun i => if i = rid then { store rid with is_resolved := true } else store i
          let out := injectResolvers dm store1 rest
          (out.1, rid :: out.2.1, Event.mk rid (collectArgs dm ds) (collectCtx dm ds) :: out.2.2)
        else
          injectResolvers dm store rest

/-- One iteration of the outer loop of `inject`: process the pending
list of one name and replace it by the snapshot with every member of
the `resolved` list removed (the TypeScript spread
`_.without(resolvers, ...resolved)`). -/
def injectStep (st : DI) (dep : String) : DI × List Event :=
  let ids := st.dependants dep
  let out := injectResolvers st.dependencies st.resolvers ids
  ({ dependencies := st.dependencies
     dependants := fun n => if n = dep then ids.filter (fun i => decide (i ∉ out.2.1)) else st.dependants n
     resolvers := out.1 },
   out.2.2)

/-- The outer loop of `inject` over the list of dependency names. -/
def injectList : DI → List String → DI × List Event
  | st, [] => (st, [])
  | st, dep :: rest =>
    let p1 := injectStep st dep
    let p2 := injectList p1.1 rest
    (p2.1, p1.2 ++ p2.2)

/-- `inject(dependencies)`: asserts the list is non-empty, then runs the
dispatch loop. -/
def inject (st : DI) (deps : List String) : Except String (DI × List Event) :=
  if deps.isEmpty then
    Except.error "Dependencies have to be a non-empty list of dependencies"
  else
    Except.ok (injectList st deps)

/-- The resolver store after the invalidation loop at the top of
`register`: when the serialized new value differs from the serialized
old value, every resolver pending on the key has its resolved flag
cleared. -/
def resetStore (st : DI) (k : String) (v : JSValue) : Nat → Resolver :=
  if some (jsonStringify v) = (st.dependencies k).map jsonStringify then
    st.resolvers
  else
    fun i => if i ∈ st.dependants k then { st.resolvers i with is_resolved := false } else st.resolvers i

/-- The registry state `register` passes to `inject`: flags invalidated
and the new value written into the dependencies map. -/
def regState (st : DI) (k : String) (v : JSValue) : DI :=
  { dependencies := fun n => if n = k then some v else st.dependencies n
    dependants := st.dependants
    resolvers := resetStore st k v }

/-- `register(dependency_key, dependency_value)`.  The value argument is
`Option JSValue` so that `none` models passing `undefined`. -/
def register (st : DI) (dependency_key : String) (dependency_value : Option JSValue) :
    Except String (DI × List Event) :=
  if dependency_key.length = 0 then
    Except.error "Dependency name/key has to be passed as a non-empty string"
  else
    match dependency_value with
    | none => Except.error "Dependency (value) is required"
    | some v => inject (regState st dependency_key v) [dependency_key]

/-- The loop of `resolve`: for each name, append the resolver to the
name's pending list and (re)write the resolver's `dependencies` field
to the full list. -/
def attach : DI → List String → List String → Nat → DI
  | st, [], _, _ => st
  | st, d :: rest, full, rid =>
    attach
      { dependencies := st.dependencies
        dependants := fun n => if n = d then st.dependants d ++ [rid] else st.dependants n
        resolvers := fun i => if i = rid then { st.resolvers i with dependencies := some full } else st.resolvers i }
      rest full rid

/-- `resolve(dependencies, resolver)`: the resolver callback is
identified by `rid`; `isCallable` models the `instanceof Function`
check. -/
def resolve (st : DI) (deps : List String) (rid : Nat) (isCallable : Bool) :
    Except String (DI × List Event) :=
  if deps.isEmpty then
    Except.error "Dependencies have to be a non-empty list of dependencies"
  else if isCallable then
    inject (attach st deps deps rid) deps
  else
    Except.error "Resolver has to be a function"

/-- An external call to the registry, for whole-run statements. -/
inductive Op where
  | reg (k : String) (v : Option JSValue)
  | res (ds : List String) (rid : Nat) (c : Bool)
deriving Repr, DecidableEq

/-- Perform one call; a call that fails its assertions leaves the state
unchanged and invokes nothing. -/
def step (st : DI) : Op → DI × List Event
  | Op.reg k v =>
    match register st k v with
    | Except.ok p => p
    | Except.error _ => (st, [])
  | Op.res ds rid c =>
    match resolve st ds rid c with
    | Except.ok p => p
    | Except.error _ => (st, [])

/-- Run a sequence of calls, concatenating the invocation traces. -/
def run : DI → List Op → DI × List Event
  | st, [] => (st, [])
  | st, op :: rest =>
    let p1 := step st op
    let p2 := run p1.1 rest
    (p2.1, p1.2 ++ p2.2)

/-- The sub-trace of invocations of one particular resolver. -/
def callsTo (g : Nat) (evs : List Event) : List Event :=
  evs.filter (fun e => decide (e.rid = g))

/-- A resolver is satisfied under a dependencies map when its required
list is set and every required name has a present (non-null) value,
which is exactly the length test `inject` performs. -/
def Sat (dm : String → Option JSValue) (r : Resolver) : Prop :=
  match r.dependencies with
  | none => False
  | some ds => (collectArgs dm ds).length = ds.length

/-- Registry after resolveOn(["n"], resolver 0) on a fresh instance. -/
def c1State : DI := (run DI.empty [Op.res ["n"] 0 true]).1

/-- Run of: resolveOn(["n"], 0); register("n", null). -/
def c1CexRun : DI × List Event :=
  run DI.empty [Op.res ["n"] 0 true, Op.reg "n" (some JSValue.vnull)]

/-- Run of: resolveOn(["x"], 0); register("x", "v1"); register("x", "v2"). -/
def c2Run : DI × List Event :=
  run DI.empty [Op.res ["x"] 0 true,
    Op.reg "x" (some (JSValue.vstr "v1")), Op.reg "x" (some (JSValue.vstr "v2"))]

/-- Registry after register("m", null); resolveOn(["m"], 0). -/
def c3State : DI :=
  (run DI.empty [Op.reg "m" (some JSValue.vnull), Op.res ["m"] 0 true]).1

/-- Registry after register("x", "v1"); resolveOn(["x"], 0): resolver 0 is satisfied. -/
def c4State : DI :=
  (run DI.empty [Op.reg "x" (some (JSValue.vstr "v1")), Op.res ["x"] 0 true]).1

/-- Run of: register("a", null); resolveOn(["a"], 0). -/
def c5CexRun : DI × List Event :=
  run DI.empty [Op.reg "a" (some JSValue.vnull), Op.res ["a"] 0 true]

/-- Registry after register("a", "va"); register("b", "vb"). -/
def c5State : DI :=
  (run DI.empty [Op.reg "a" (some (JSValue.vstr "va")), Op.reg "b" (some (JSValue.vstr "vb"))]).1

/-- The values registered in c5State, keyed by name. -/
def c5V : String → JSValue :=
  fun n => if n = "a" then JSValue.vstr "va" else JSValue.vstr "vb"

/-- resolveOn(["a","b"], 0) then register("b", 1): "a" is never registered. -/
def c6Ops : List Op :=
  [Op.res ["a", "b"] 0 true, Op.reg "b" (some (JSValue.vnum 1))]

/-- A registry (expressible through the constructor's dependencies/dependants options) in
which resolver 0 requires {"a","b"}, both values are present and non-null, and the resolver
is pending on both names but has not yet been dispatched. -/
def c7State : DI :=
  { dependencies := fun n =>
      if n = "a" then some (JSValue.vstr "va")
      else if n = "b" then some (JSValue.vstr "vb") else none
    dependants := fun n => if n = "a" then [0] else if n = "b" then [0] else []
    resolvers := fun i => if i = 0 then ⟨some ["a", "b"], false⟩ else ⟨none, false⟩ }

/-- The values visible to resolver 0 in c7State. -/
def c7V : String → JSValue :=
  fun n => if n = "a" then JSValue.vstr "va" else JSValue.vstr "vb"

/-- Result of register("a", 1) on a fresh registry. -/
def c10reg : DI × List Event :=
  match register DI.empty "a" (some (JSValue.vnum 1)) with
  | Except.ok p => p
  | Except.error _ => (DI.empty, [])

/-- Result of inject(["a"]) on a fresh registry. -/
def c10inj : DI × List Event :=
  match inject DI.empty ["a"] with
  | Except.ok p => p
  | Except.error _ => (DI.empty, [])

theorem string_length_eq_zero {s : String} : s.length = 0 ↔ s = "" := by
  cases s with
  | mk data =>
    constructor
    · intro h
      simp only [String.length] at h
      rw [List.length_eq_zero] at h
      simp [h]
    · intro h
      rw [h]
      rfl

theorem callsTo_nil (g : Nat) : callsTo g [] = [] := rfl

theorem callsTo_append (g : Nat) (l1 l2 : List Event) :
    callsTo g (l1 ++ l2) = callsTo g l1 ++ callsTo g l2 := by
  simp [callsTo]

theorem callsTo_cons_self (g : Nat) (e : Event) (l : List Event) (h : e.rid = g) :
    callsTo g (e :: l) = e :: callsTo g l := by
  simp [callsTo, List.filter_cons, h]

theorem callsTo_cons_ne (g : Nat) (e : Event) (l : List Event) (h : e.rid ≠ g) :
    callsTo g (e :: l) = callsTo g l := by
  simp [callsTo, List.filter_cons, h]

theorem presentValue_some (dm : String → Option JSValue) (n : String) (v : JSValue)
    (h1 : dm n = some v) (h2 : v ≠ JSValue.vnull) : presentValue dm n = some v := by
  simp [presentValue, h1, h2]

theorem presentValue_null (dm : String → Option JSValue) (n : String)
    (h : dm n = some JSValue.vnull) : presentValue dm n = none := by
  simp [presentValue, h]

theorem presentValue_undef (dm : String → Option JSValue) (n : String)
    (h : dm n = none) : presentValue dm n = none := by
  simp [presentValue, h]

theorem collectArgs_eq_map (dm : String → Option JSValue) (V : String → JSValue) :
    ∀ ds : List String, (∀ n ∈ ds, dm n = some (V n) ∧ V n ≠ JSValue.vnull) →
    collectArgs dm ds = ds.map V := by
  intro ds
  induction ds with
  | nil => intro _; rfl
  | cons d rest ih =>
    intro h
    have hd := h d (List.mem_cons_self d rest)
    have hrest : ∀ n ∈ rest, dm n = some (V n) ∧ V n ≠ JSValue.vnull :=
      fun n hn => h n (List.mem_cons_of_mem d hn)
    simp only [collectArgs, List.filterMap_cons, presentValue_some dm d (V d) hd.1 hd.2,
      List.map_cons]
    exact congrArg _ (ih hrest)

theorem collectCtx_eq_map (dm : String → Option JSValue) (V : String → JSValue) :
    ∀ ds : List String, (∀ n ∈ ds, dm n = some (V n) ∧ V n ≠ JSValue.vnull) →
    collectCtx dm ds = ds.map (fun n => (n, V n)) := by
  intro ds
  induction ds with
  | nil => intro _; rfl
  | cons d rest ih =>
    intro h
    have hd := h d (List.mem_cons_self d rest)
    have hrest : ∀ n ∈ rest, dm n = some (V n) ∧ V n ≠ JSValue.vnull :=
      fun n hn => h n (List.mem_cons_of_mem d hn)
    simp only [collectCtx, List.filterMap_cons, presentValue_some dm d (V d) hd.1 hd.2,
      Option.map_some, List.map_cons]
    exact congrArg _ (ih hrest)

theorem length_filterMap_lt {α β : Type} (f : α → Option β) :
    ∀ (l : List α) (a : α), a ∈ l → f a = none → (l.filterMap f).length < l.length := by
  intro l
  induction l with
  | nil => intro a ha; cases ha
  | cons x xs ih =>
    intro a ha hf
    rcases List.mem_cons.mp ha with h | h
    · subst h
      simp only [List.filterMap_cons, hf, List.length_cons]
      exact Nat.lt_succ_of_le (List.length_filterMap_le f xs)
    · cases hx : f x with
      | none =>
        simp only [List.filterMap_cons, hx, List.length_cons]
        exact Nat.lt_succ_of_lt (ih a h hf)
      | some b =>
        simp only [List.filterMap_cons, hx, List.length_cons]
        exact Nat.succ_lt_succ (ih a h hf)

theorem notSat_of_mem_none (dm : String → Option JSValue) (r : Resolver) (n0 : String)
    (hn : presentValue dm n0 = none)
    (h : ∀ ds, r.dependencies = some ds → n0 ∈ ds) : ¬ Sat dm r := by
  unfold Sat
  cases hd : r.dependencies with
  | none => exact fun hfalse => hfalse
  | some ds =>
    intro hlen
    exact absurd hlen (Nat.ne_of_lt (length_filterMap_lt (presentValue dm) ds n0 (h ds hd) hn))

theorem injectResolvers_cons_resolved (dm : String → Option JSValue) (store : Nat → Resolver)
    (rid : Nat) (rest : List Nat) (hb : (store rid).is_resolved = true) :
    injectResolvers dm store (rid :: rest) =
      ((injectResolvers dm store rest).1,
        rid :: (injectResolvers dm store rest).2.1,
        (injectResolvers dm store rest).2.2) := by
  simp [injectResolvers, hb]

theorem injectResolvers_cons_nodeps (dm : String → Option JSValue) (store : Nat → Resolver)
    (rid : Nat) (rest : List Nat) (hb : (store rid).is_resolved = false)
    (hd : (store rid).dependencies = none) :
    injectResolvers dm store (rid :: rest) = injectResolvers dm store rest := by
  simp [injectResolvers, hb, hd]

theorem injectResolvers_cons_sat (dm : String → Option JSValue) (store : Nat → Resolver)
    (rid : Nat) (rest : List Nat) (ds : List String) (hb : (store rid).is_resolved = false)
    (hd : (store rid).dependencies = some ds)
    (hl : (collectArgs dm ds).length = ds.length) :
    injectResolvers dm store (rid :: rest) =
      ((injectResolvers dm (fun i => if i = rid then { store rid with is_resolved := true } else store i) rest).1,
        rid :: (injectResolvers dm (fun i => if i = rid then { store rid with is_resolved := true } else store i) rest).2.1,
        Event.mk rid (collectArgs dm ds) (collectCtx dm ds) ::
          (injectResolvers dm (fun i => if i = rid then { store rid with is_resolved := true } else store i) rest).2.2) := by
  simp [injectResolvers, hb, hd, hl]

theorem injectResolvers_cons_unsat (dm : String → Option JSValue) (store : Nat → Resolver)
    (rid : Nat) (rest : List Nat) (ds : List String) (hb : (store rid).is_resolved = false)
    (hd : (store rid).dependencies = some ds)
    (hl : (collectArgs dm ds).length ≠ ds.length) :
    injectResolvers dm store (rid :: rest) = injectResolvers dm store rest := by
  simp [injectResolvers, hb, hd, hl]

theorem injectResolvers_rdeps (dm : String → Option JSValue) :
    ∀ (ids : List Nat) (store : Nat → Resolver) (i : Nat),
    ((injectResolvers dm store ids).1 i).dependencies = (store i).dependencies := by
  intro ids
  induction ids with
  | nil => intro store i; rfl
  | cons rid rest ih =>
    intro store i
    cases hb : (store rid).is_resolved with
    | true =>
      rw [injectResolvers_cons_resolved dm store rid rest hb]
      exact ih store i
    | false =>
      cases hd : (store rid).dependencies with
      | none =>
        rw [injectResolvers_cons_nodeps dm store rid rest hb hd]
        exact ih store i
      | some ds =>
        by_cases hl : (collectArgs dm ds).length = ds.length
        · rw [injectResolvers_cons_sat dm store rid rest ds hb hd hl]
          rw [ih (fun i => if i = rid then { store rid with is_resolved := true } else store i) i]
          by_cases hir : i = rid
          · subst hir; simp
          · simp [hir]
        · rw [injectResolvers_cons_unsat dm store rid rest ds hb hd hl]
          exact ih store i

theorem injectResolvers_resolved (dm : String → Option JSValue) :
    ∀ (ids : List Nat) (store : Nat → Resolver) (g : Nat),
    (store g).is_resolved = true →
    (injectResolvers dm store ids).1 g = store g ∧
    callsTo g (injectResolvers dm store ids).2.2 = [] ∧
    (g ∈ ids → g ∈ (injectResolvers dm store ids).2.1) := by
  intro ids
  induction ids with
  | nil =>
    intro store g hg
    refine ⟨rfl, rfl, ?_⟩
    intro h; cases h
  | cons rid rest ih =>
    intro store g hg
    cases hb : (store rid).is_resolved with
    | true =>
      rw [injectResolvers_cons_resolved dm store rid rest hb]
      obtain ⟨h1, h2, h3⟩ := ih store g hg
      refine ⟨h1, h2, ?_⟩
      intro hmem
      rcases List.mem_cons.mp hmem with h | h
      · exact List.mem_cons.mpr (Or.inl h)
      · exact List.mem_cons.mpr (Or.inr (h3 h))
    | false =>
      have hgr : g ≠ rid := by
        intro h; rw [h, hb] at hg; cases hg
      cases hd : (store rid).dependencies with
      | none =>
        rw [injectResolvers_cons_nodeps dm store rid rest hb hd]
        obtain ⟨h1, h2, h3⟩ := ih store g hg
        refine ⟨h1, h2, ?_⟩
        intro hmem
        rcases List.mem_cons.mp hmem with h | h
        · exact absurd h hgr
        · exact h3 h
      | some ds =>
        by_cases hl : (collectArgs dm ds).length = ds.length
        · rw [injectResolvers_cons_sat dm store rid rest ds hb hd hl]
          have hstore1 : (fun i => if i = rid then { store rid with is_resolved := true } else store i) g = store g := by
            simp [hgr]
          obtain ⟨h1, h2, h3⟩ := ih
            (fun i => if i = rid then { store rid with is_resolved := true } else store i) g
            (by rw [hstore1]; exact hg)
          refine ⟨by rw [h1]; simp [hgr], ?_, ?_⟩
          · rw [callsTo_cons_ne g _ _ (by simpa using (Ne.symm hgr)), h2]
          · intro hmem
            rcases List.mem_cons.mp hmem with h | h
            · exact absurd h hgr
            · exact List.mem_cons.mpr (Or.inr (h3 h))
        · rw [injectResolvers_cons_unsat dm store rid rest ds hb hd hl]
          obtain ⟨h1, h2, h3⟩ := ih store g hg
          refine ⟨h1, h2, ?_⟩
          intro hmem
          rcases List.mem_cons.mp hmem with h | h
          · exact absurd h hgr
          · exact h3 h

theorem injectResolvers_noSat (dm : String → Option JSValue) :
    ∀ (ids : List Nat) (store : Nat → Resolver) (g : Nat),
    ¬ Sat dm (store g) →
    (injectResolvers dm store ids).1 g = store g ∧
    callsTo g (injectResolvers dm store ids).2.2 = [] := by
  intro ids
  induction ids with
  | nil => intro store g _; exact ⟨rfl, rfl⟩
  | cons rid rest ih =>
    intro store g hg
    cases hb : (store rid).is_resolved with
    | true =>
      rw [injectResolvers_cons_resolved dm store rid rest hb]
      exact ih store g hg
    | false =>
      cases hd : (store rid).dependencies with
      | none =>
        rw [injectResolvers_cons_nodeps dm store rid rest hb hd]
        exact ih store g hg
      | some ds =>
        by_cases hl : (collectArgs dm ds).length = ds.length
        · have hgr : g ≠ rid := by
            intro h
            apply hg
            rw [h]
            unfold Sat
            rw [hd]
            exact hl
          rw [injectResolvers_cons_sat dm store rid rest ds hb hd hl]
          have hstore1 : (fun i => if i = rid then { store rid with is_resolved := true } else store i) g = store g := by
            simp [hgr]
          obtain ⟨h1, h2⟩ := ih
            (fun i => if i = rid then { store rid with is_resolved := true } else store i) g
            (by rw [hstore1]; exact hg)
          refine ⟨by rw [h1]; simp [hgr], ?_⟩
          rw [callsTo_cons_ne g _ _ (by simpa using (Ne.symm hgr)), h2]
        · rw [injectResolvers_cons_unsat dm store rid rest ds hb hd hl]
          exact ih store g hg

theorem injectResolvers_satOnce (dm : String → Option JSValue) :
    ∀ (ids : List Nat) (store : Nat → Resolver) (g : Nat) (ds : List String),
    g ∈ ids →
    (store g).is_resolved = false →
    (store g).dependencies = some ds →
    (collectArgs dm ds).length = ds.length →
    (injectResolvers dm store ids).1 g = ⟨some ds, true⟩ ∧
    callsTo g (injectResolvers dm store ids).2.2 =
      [Event.mk g (collectArgs dm ds) (collectCtx dm ds)] ∧
    g ∈ (injectResolvers dm store ids).2.1 := by
  intro ids
  induction ids with
  | nil => intro store g ds hmem; cases hmem
  | cons rid rest ih =>
    intro store g ds hmem hflag hdeps hlen
    by_cases hgr : g = rid
    · subst hgr
      rw [injectResolvers_cons_sat dm store g rest ds hflag hdeps hlen]
      have hstore1 : (fun i => if i = g then { store g with is_resolved := true } else store i) g
          = ⟨some ds, true⟩ := by
        simp [hdeps]
      obtain ⟨h1, h2, _⟩ := injectResolvers_resolved dm rest
        (fun i => if i = g then { store g with is_resolved := true } else store i) g
        (by rw [hstore1])
      refine ⟨by rw [h1]; simp [hdeps], ?_, List.mem_cons_self _ _⟩
      rw [callsTo_cons_self g _ _ rfl, h2]
    · have hmem2 : g ∈ rest := by
        rcases List.mem_cons.mp hmem with h | h
        · exact absurd h hgr
        · exact h
      cases hb : (store rid).is_resolved with
      | true =>
        rw [injectResolvers_cons_resolved dm store rid rest hb]
        obtain ⟨h1, h2, h3⟩ := ih store g ds hmem2 hflag hdeps hlen
        exact ⟨h1, h2, List.mem_cons.mpr (Or.inr h3)⟩
      | false =>
        cases hd : (store rid).dependencies with
        | none =>
          rw [injectResolvers_cons_nodeps dm store rid rest hb hd]
          exact ih store g ds hmem2 hflag hdeps hlen
        | some ds2 =>
          by_cases hl : (collectArgs dm ds2).length = ds2.length
          · rw [injectResolvers_cons_sat dm store rid rest ds2 hb hd hl]
            have hstore1 : (fun i => if i = rid then { store rid with is_resolved := true } else store i) g = store g := by
              simp [hgr]
            obtain ⟨h1, h2, h3⟩ := ih
              (fun i => if i = rid then { store rid with is_resolved := true } else store i) g ds
              hmem2 (by rw [hstore1]; exact hflag) (by rw [hstore1]; exact hdeps) hlen
            refine ⟨h1, ?_, List.mem_cons.mpr (Or.inr h3)⟩
            rw [callsTo_cons_ne g _ _ (by simpa using (Ne.symm hgr)), h2]
          · rw [injectResolvers_cons_unsat dm store rid rest ds2 hb hd hl]
            exact ih store g ds hmem2 hflag hdeps hlen

theorem injectStep_dependencies (st : DI) (d : String) :
    (injectStep st d).1.dependencies = st.dependencies := rfl

theorem injectStep_resolvers (st : DI) (d : String) :
    (injectStep st d).1.resolvers =
      (injectResolvers st.dependencies st.resolvers (st.dependants d)).1 := rfl

theorem injectStep_events (st : DI) (d : String) :
    (injectStep st d).2 =
      (injectResolvers st.dependencies st.resolvers (st.dependants d)).2.2 := rfl

theorem injectStep_dependants_ne (st : DI) (d n : String) (h : n ≠ d) :
    (injectStep st d).1.dependants n = st.dependants n := by
  simp [injectStep, h]

theorem injectStep_dependants_self (st : DI) (d : String) :
    (injectStep st d).1.dependants d =
      (st.dependants d).filter
        (fun i => decide (i ∉ (injectResolvers st.dependencies st.resolvers (st.dependants d)).2.1)) := by
  simp [injectStep]

theorem injectList_single (st : DI) (d : String) :
    injectList st [d] = ((injectStep st d).1, (injectStep st d).2) := by
  simp [injectList]

theorem injectList_dependencies :
    ∀ (ns : List String) (st : DI), (injectList st ns).1.dependencies = st.dependencies := by
  intro ns
  induction ns with
  | nil => intro st; rfl
  | cons d rest ih =>
    intro st
    show (injectList (injectStep st d).1 rest).1.dependencies = st.dependencies
    rw [ih (injectStep st d).1, injectStep_dependencies]

theorem injectList_rdeps :
    ∀ (ns : List String) (st : DI) (i : Nat),
    ((injectList st ns).1.resolvers i).dependencies = (st.resolvers i).dependencies := by
  intro ns
  induction ns with
  | nil => intro st i; rfl
  | cons d rest ih =>
    intro st i
    show ((injectList (injectStep st d).1 rest).1.resolvers i).dependencies = _
    rw [ih (injectStep st d).1 i, injectStep_resolvers,
      injectResolvers_rdeps st.dependencies (st.dependants d) st.resolvers i]

theorem injectList_noSat :
    ∀ (ns : List String) (st : DI) (g : Nat),
    ¬ Sat st.dependencies (st.resolvers g) →
    (injectList st ns).1.resolvers g = st.resolvers g ∧
    callsTo g (injectList st ns).2 = [] := by
  intro ns
  induction ns with
  | nil => intro st g _; exact ⟨rfl, rfl⟩
  | cons d rest ih =>
    intro st g hg
    obtain ⟨h1, h2⟩ := injectResolvers_noSat st.dependencies (st.dependants d) st.resolvers g hg
    have hres : (injectStep st d).1.resolvers g = st.resolvers g := by
      rw [injectStep_resolvers]; exact h1
    have hg2 : ¬ Sat (injectStep st d).1.dependencies ((injectStep st d).1.resolvers g) := by
      rw [injectStep_dependencies, hres]; exact hg
    obtain ⟨h3, h4⟩ := ih (injectStep st d).1 g hg2
    constructor
    · show (injectList (injectStep st d).1 rest).1.resolvers g = st.resolvers g
      rw [h3, hres]
    · show callsTo g ((injectStep st d).2 ++ (injectList (injectStep st d).1 rest).2) = []
      rw [callsTo_append, h4, injectStep_events, h2]
      rfl

theorem injectList_resolved :
    ∀ (ns : List String) (st : DI) (g : Nat),
    (st.resolvers g).is_resolved = true →
    (injectList st ns).1.resolvers g = st.resolvers g ∧
    callsTo g (injectList st ns).2 = [] := by
  intro ns
  induction ns with
  | nil => intro st g _; exact ⟨rfl, rfl⟩
  | cons d rest ih =>
    intro st g hg
    obtain ⟨h1, h2, _⟩ := injectResolvers_resolved st.dependencies (st.dependants d) st.resolvers g hg
    have hres : (injectStep st d).1.resolvers g = st.resolvers g := by
      rw [injectStep_resolvers]; exact h1
    have hg2 : ((injectStep st d).1.resolvers g).is_resolved = true := by
      rw [hres]; exact hg
    obtain ⟨h3, h4⟩ := ih (injectStep st d).1 g hg2
    constructor
    · show (injectList (injectStep st d).1 rest).1.resolvers g = st.resolvers g
      rw [h3, hres]
    · show callsTo g ((injectStep st d).2 ++ (injectList (injectStep st d).1 rest).2) = []
      rw [callsTo_append, h4, injectStep_events, h2]
      rfl

theorem injectList_pending_ne :
    ∀ (ns : List String) (st : DI) (n : String), n ∉ ns →
    (injectList st ns).1.dependants n = st.dependants n := by
  intro ns
  induction ns with
  | nil => intro st n _; rfl
  | cons d rest ih =>
    intro st n hn
    have hnd : n ≠ d := fun h => hn (h ▸ List.mem_cons_self d rest)
    have hnr : n ∉ rest := fun h => hn (List.mem_cons_of_mem d h)
    show (injectList (injectStep st d).1 rest).1.dependants n = st.dependants n
    rw [ih (injectStep st d).1 n hnr, injectStep_dependants_ne st d n hnd]

theorem injectList_pending_sublist :
    ∀ (ns : List String) (st : DI) (n : String),
    ((injectList st ns).1.dependants n).Sublist (st.dependants n) := by
  intro ns
  induction ns with
  | nil => intro st n; exact List.Sublist.refl _
  | cons d rest ih =>
    intro st n
    have h1 : ((injectList (injectStep st d).1 rest).1.dependants n).Sublist
        ((injectStep st d).1.dependants n) := ih (injectStep st d).1 n
    have h2 : ((injectStep st d).1.dependants n).Sublist (st.dependants n) := by
      by_cases hnd : n = d
      · subst hnd
        rw [injectStep_dependants_self]
        exact List.filter_sublist _
      · rw [injectStep_dependants_ne st d n hnd]
    exact h1.trans h2

theorem attach_dependencies (full : List String) (rid : Nat) :
    ∀ (l : List String) (st : DI), (attach st l full rid).dependencies = st.dependencies := by
  intro l
  induction l with
  | nil => intro st; rfl
  | cons d rest ih => intro st; rw [attach, ih]

theorem attach_flag (full : List String) (rid : Nat) :
    ∀ (l : List String) (st : DI) (i : Nat),
    ((attach st l full rid).resolvers i).is_resolved = (st.resolvers i).is_resolved := by
  intro l
  induction l with
  | nil => intro st i; rfl
  | cons d rest ih =>
    intro st i
    rw [attach, ih]
    by_cases h : i = rid
    · subst h; simp
    · simp [h]

theorem attach_rdeps_other (full : List String) (rid : Nat) :
    ∀ (l : List String) (st : DI) (i : Nat), i ≠ rid →
    (attach st l full rid).resolvers i = st.resolvers i := by
  intro l
  induction l with
  | nil => intro st i _; rfl
  | cons d rest ih =>
    intro st i h
    rw [attach, ih _ i h]
    simp [h]

theorem attach_rdeps_rid (full : List String) (rid : Nat) :
    ∀ (l : List String) (st : DI), l ≠ [] →
    ((attach st l full rid).resolvers rid).dependencies = some full := by
  intro l
  induction l with
  | nil => intro st h; exact absurd rfl h
  | cons d rest ih =>
    intro st _
    rw [attach]
    by_cases hr : rest = []
    · subst hr
      show ((attach _ [] full rid).resolvers rid).dependencies = some full
      rw [attach]
      simp
    · exact ih _ hr

theorem attach_mem_dependants (full : List String) (rid : Nat) :
    ∀ (l : List String) (st : DI) (n : String),
    rid ∈ st.dependants n → rid ∈ (attach st l full rid).dependants n := by
  intro l
  induction l with
  | nil => intro st n h; exact h
  | cons d rest ih =>
    intro st n h
    rw [attach]
    apply ih
    by_cases hnd : n = d
    · subst hnd
      simp only [if_pos rfl]
      exact List.mem_append_left _ h
    · simpa [hnd] using h

theorem attach_mem_of_mem (full : List String) (rid : Nat) :
    ∀ (l : List String) (st : DI) (n : String), n ∈ l →
    rid ∈ (attach st l full rid).dependants n := by
  intro l
  induction l with
  | nil => intro st n h; cases h
  | cons d rest ih =>
    intro st n h
    rcases List.mem_cons.mp h with h | h
    · subst h
      rw [attach]
      apply attach_mem_dependants
      simp
    · exact ih _ n h

theorem resetStore_rdeps (st : DI) (k : String) (v : JSValue) (i : Nat) :
    (resetStore st k v i).dependencies = (st.resolvers i).dependencies := by
  unfold resetStore
  by_cases h : some (jsonStringify v) = (st.dependencies k).map jsonStringify
  · rw [if_pos h]
  · rw [if_neg h]
    by_cases h2 : i ∈ st.dependants k
    · simp [h2]
    · simp [h2]

/-- Claim C1, counterexample: with resolver 0 registered via resolveOn(["n"], g) on a fresh
registry (so "n" has never been registered and g's required list is exactly ["n"]),
register("n", null) succeeds and stores null, yet g is not invoked at all — the `!= null`
check in inject skips null values — contradicting "invokes g exactly once, with the single
positional argument V" at V = null. -/
theorem c1_null_register_does_not_invoke :
    callsTo 0 c1CexRun.2 = [] ∧
    c1CexRun.1.dependencies "n" = some JSValue.vnull ∧
    c1State.dependencies "n" = none ∧
    (c1State.resolvers 0).dependencies = some ["n"] ∧
    0 ∈ c1State.dependants "n" := by
  refine ⟨rfl, rfl, rfl, rfl, ?_⟩
  decide

/-- Claim C1 (amended: the registered value V must additionally be non-null, since inject
skips null values): if N was never registered, resolver g requires exactly [N] and is
pending on N, then register(N, V) returns successfully and its trace invokes g exactly
once, with the single positional argument V (and context mapping N to V). -/
theorem c1_first_register_invokes_once
    (st : DI) (N : String) (V : JSValue) (g : Nat)
    (hN : N ≠ "") (hV : V ≠ JSValue.vnull)
    (hnew : st.dependencies N = none)
    (hdeps : (st.resolvers g).dependencies = some [N])
    (hpend : g ∈ st.dependants N) :
    ∃ p, register st N (some V) = Except.ok p ∧
      callsTo g p.2 = [Event.mk g [V] [(N, V)]] := by
  have hlen0 : ¬ N.length = 0 := fun h => hN (string_length_eq_zero.mp h)
  have hreg : register st N (some V) = Except.ok (injectList (regState st N V) [N]) := by
    unfold register
    rw [if_neg hlen0]
    rfl
  have hdm : (regState st N V).dependencies N = some V := by
    show (if N = N then some V else st.dependencies N) = some V
    rw [if_pos rfl]
  have hchanged : ¬ (some (jsonStringify V) = (st.dependencies N).map jsonStringify) := by
    rw [hnew]
    simp
  have hflag1 : (regState st N V).resolvers g = ⟨some [N], false⟩ := by
    show resetStore st N V g = _
    unfold resetStore
    rw [if_neg hchanged, if_pos hpend]
    simp [hdeps]
  have hargs : collectArgs (regState st N V).dependencies [N] = [V] := by
    simp [collectArgs, presentValue_some (regState st N V).dependencies N V hdm hV]
  have hctx : collectCtx (regState st N V).dependencies [N] = [(N, V)] := by
    simp [collectCtx, presentValue_some (regState st N V).dependencies N V hdm hV]
  have hpend1 : g ∈ (regState st N V).dependants N := hpend
  obtain ⟨h1, h2, h3⟩ := injectResolvers_satOnce (regState st N V).dependencies
    ((regState st N V).dependants N) (regState st N V).resolvers g [N]
    hpend1 (by rw [hflag1]) (by rw [hflag1]) (by rw [hargs]; rfl)
  refine ⟨injectList (regState st N V) [N], hreg, ?_⟩
  rw [injectList_single, injectStep_events, h2, hargs, hctx]

/-- Claim C1, witness at concrete input: resolveOn(["n"], 0) on a fresh registry, then
register("n", "v"). -/
theorem c1_first_register_invokes_once_witness :
    ∃ p, register c1State "n" (some (JSValue.vstr "v")) = Except.ok p ∧
      callsTo 0 p.2 = [Event.mk 0 [JSValue.vstr "v"] [("n", JSValue.vstr "v")]] :=
  c1_first_register_invokes_once c1State "n" (JSValue.vstr "v") 0
    (by decide) (by decide) rfl rfl (by decide)

/-- Claim C2, evaluation of the code at the failing input of the repository's own test
("should invoke resolver if dependency registered changes value"): after
resolveOn(["x"], 0); register("x", "v1"); register("x", "v2"), resolver 0 was invoked
exactly once, with "v1", and never re-invoked with "v2" — the satisfied resolver was
removed from pending["x"] by the first dispatch, so nothing is left for the deep-unequal
second registration to reset and re-invoke, although the stored value does change. -/
theorem c2_changed_value_not_reinvoked :
    callsTo 0 c2Run.2 = [Event.mk 0 [JSValue.vstr "v1"] [("x", JSValue.vstr "v1")]] ∧
    c2Run.1.dependants "x" = [] ∧
    c2Run.1.dependencies "x" = some (JSValue.vstr "v2") :=
  ⟨rfl, rfl, rfl⟩

/-- Claim C3: register accepts null and stores it in the dependencies map, and a resolver
one of whose required names currently maps to null is never invoked by dispatch (inject):
the null value is skipped when building the argument tuple, so the length test fails. -/
theorem c3_null_stored_but_never_counts
    (st : DI) (k : String) (g : Nat) (ds : List String) (n0 : String) (names : List String)
    (hk : k ≠ "")
    (hds : (st.resolvers g).dependencies = some ds)
    (hmem : n0 ∈ ds)
    (hnull : st.dependencies n0 = some JSValue.vnull) :
    (∃ p, register st k (some JSValue.vnull) = Except.ok p ∧
      p.1.dependencies k = some JSValue.vnull) ∧
    (∀ p, inject st names = Except.ok p → callsTo g p.2 = []) := by
  constructor
  · have hlen0 : ¬ k.length = 0 := fun h => hk (string_length_eq_zero.mp h)
    refine ⟨injectList (regState st k JSValue.vnull) [k], ?_, ?_⟩
    · unfold register
      rw [if_neg hlen0]
      rfl
    · rw [injectList_dependencies]
      show (if k = k then some JSValue.vnull else st.dependencies k) = some JSValue.vnull
      rw [if_pos rfl]
  · intro p hp
    have hnames : ¬ (names.isEmpty = true) := by
      intro h
      unfold inject at hp
      rw [if_pos h] at hp
      cases hp
    have hpl : injectList st names = p := by
      unfold inject at hp
      rw [if_neg hnames] at hp
      injection hp
    subst hpl
    have hnsat : ¬ Sat st.dependencies (st.resolvers g) :=
      notSat_of_mem_none st.dependencies (st.resolvers g) n0
        (presentValue_null st.dependencies n0 hnull)
        (fun ds2 h2 => by rw [hds] at h2; injection h2 with h3; rw [← h3]; exact hmem)
    exact (injectList_noSat names st g hnsat).2

/-- Claim C3, witness at concrete input: register("m", null); resolveOn(["m"], 0);
then register("a", null) stores null, and dispatching ["m"] never invokes resolver 0. -/
theorem c3_null_stored_but_never_counts_witness :
    (∃ p, register c3State "a" (some JSValue.vnull) = Except.ok p ∧
      p.1.dependencies "a" = some JSValue.vnull) ∧
    (∀ p, inject c3State ["m"] = Except.ok p → callsTo 0 p.2 = []) :=
  c3_null_stored_but_never_counts c3State "a" 0 ["m"] "m" ["m"]
    (by decide) rfl (by decide) rfl

/-- Claim C4: registering one of a satisfied resolver's names again with a value whose
serialized form equals that of the currently stored value neither re-invokes the resolver
nor clears its resolved flag. -/
theorem c4_equal_value_register_idempotent
    (st : DI) (k : String) (g : Nat) (v w : JSValue)
    (hk : k ≠ "")
    (hres : (st.resolvers g).is_resolved = true)
    (hold : st.dependencies k = some w)
    (heq : jsonStringify v = jsonStringify w) :
    ∃ p, register st k (some v) = Except.ok p ∧
      callsTo g p.2 = [] ∧ (p.1.resolvers g).is_resolved = true := by
  have hlen0 : ¬ k.length = 0 := fun h => hk (string_length_eq_zero.mp h)
  have hrs : (regState st k v).resolvers = st.resolvers := by
    show resetStore st k v = st.resolvers
    unfold resetStore
    rw [if_pos (by rw [hold]; simp [heq])]
  obtain ⟨h1, h2⟩ := injectList_resolved [k] (regState st k v) g (by rw [hrs]; exact hres)
  refine ⟨injectList (regState st k v) [k], ?_, h2, ?_⟩
  · unfold register
    rw [if_neg hlen0]
    rfl
  · rw [h1, hrs]
    exact hres

/-- Claim C4, witness at concrete input: after register("x", "v1"); resolveOn(["x"], 0)
the resolver is satisfied; register("x", "v1") again does not re-invoke it. -/
theorem c4_equal_value_register_idempotent_witness :
    ∃ p, register c4State "x" (some (JSValue.vstr "v1")) = Except.ok p ∧
      callsTo 0 p.2 = [] ∧ (p.1.resolvers 0).is_resolved = true :=
  c4_equal_value_register_idempotent c4State "x" 0 (JSValue.vstr "v1") (JSValue.vstr "v1")
    (by decide) rfl rfl rfl

/-- Claim C5, counterexample: register("a", null); then resolveOn(["a"], 0).  Every name in
["a"] has a registered value (null is accepted and stored), yet the resolver is not invoked
before resolveOn returns — it stays pending — because inject skips null values.  The claim
holds only when the registered values are non-null. -/
theorem c5_null_registered_value_not_invoked :
    callsTo 0 c5CexRun.2 = [] ∧
    c5CexRun.1.dependencies "a" = some JSValue.vnull ∧
    c5CexRun.1.dependants "a" = [0] :=
  ⟨rfl, rfl, rfl⟩

/-- Claim C5 (amended: every name must hold a registered non-null value; f is a fresh,
not-yet-resolved callback): resolveOn(names, f) invokes f synchronously within the call,
exactly once, with the registered values as positional arguments in the order of names,
and with the name-to-value mapping as the call's contextual receiver. -/
theorem c5_resolve_invokes_when_all_present
    (st : DI) (names : List String) (f : Nat) (V : String → JSValue)
    (hne : names ≠ [])
    (hvals : ∀ n ∈ names, st.dependencies n = some (V n) ∧ V n ≠ JSValue.vnull)
    (hfresh : (st.resolvers f).is_resolved = false) :
    ∃ p, resolve st names f true = Except.ok p ∧
      callsTo f p.2 = [Event.mk f (names.map V) (names.map (fun n => (n, V n)))] := by
  have hemp : ¬ (names.isEmpty = true) := fun h => hne (List.isEmpty_iff.mp h)
  have hresolve : resolve st names f true
      = Except.ok (injectList (attach st names names f) names) := by
    unfold resolve
    rw [if_neg hemp, if_pos rfl]
    unfold inject
    rw [if_neg hemp]
  have hdm1 : (attach st names names f).dependencies = st.dependencies :=
    attach_dependencies names f names st
  have hrdf : ((attach st names names f).resolvers f).dependencies = some names :=
    attach_rdeps_rid names f names st hne
  have hff : ((attach st names names f).resolvers f).is_resolved = false := by
    rw [attach_flag names f names st f]
    exact hfresh
  have hargs : collectArgs st.dependencies names = names.map V :=
    collectArgs_eq_map st.dependencies V names hvals
  have hctx : collectCtx st.dependencies names = names.map (fun n => (n, V n)) :=
    collectCtx_eq_map st.dependencies V names hvals
  obtain ⟨n1, rest, hns⟩ : ∃ n1 rest, names = n1 :: rest := by
    cases names with
    | nil => exact absurd rfl hne
    | cons a b => exact ⟨a, b, rfl⟩
  subst hns
  have hmem : f ∈ (attach st (n1 :: rest) (n1 :: rest) f).dependants n1 :=
    attach_mem_of_mem (n1 :: rest) f (n1 :: rest) st n1 (List.mem_cons_self _ _)
  obtain ⟨h1, h2, _⟩ := injectResolvers_satOnce
    (attach st (n1 :: rest) (n1 :: rest) f).dependencies
    ((attach st (n1 :: rest) (n1 :: rest) f).dependants n1)
    (attach st (n1 :: rest) (n1 :: rest) f).resolvers f (n1 :: rest)
    hmem hff hrdf (by rw [hdm1, hargs, List.length_map])
  have hrsf : ((injectStep (attach st (n1 :: rest) (n1 :: rest) f) n1).1.resolvers f).is_resolved
      = true := by
    rw [injectStep_resolvers, h1]
  obtain ⟨_, h4⟩ := injectList_resolved rest
    (injectStep (attach st (n1 :: rest) (n1 :: rest) f) n1).1 f hrsf
  refine ⟨injectList (attach st (n1 :: rest) (n1 :: rest) f) (n1 :: rest), hresolve, ?_⟩
  have hsnd : (injectList (attach st (n1 :: rest) (n1 :: rest) f) (n1 :: rest)).2
      = (injectStep (attach st (n1 :: rest) (n1 :: rest) f) n1).2
        ++ (injectList (injectStep (attach st (n1 :: rest) (n1 :: rest) f) n1).1 rest).2 := rfl
  rw [hsnd, callsTo_append, injectStep_events, h2, h4, hdm1, hargs, hctx]
  rfl

/-- Claim C5, witness at concrete input: register("a","va"); register("b","vb");
resolveOn(["a","b"], 0) invokes resolver 0 once with ("va","vb"). -/
theorem c5_resolve_invokes_when_all_present_witness :
    ∃ p, resolve c5State ["a", "b"] 0 true = Except.ok p ∧
      callsTo 0 p.2 =
        [Event.mk 0 (["a", "b"].map c5V) (["a", "b"].map (fun n => (n, c5V n)))] :=
  c5_resolve_invokes_when_all_present c5State ["a", "b"] 0 c5V
    (by decide) (by decide) rfl

/-- Run-invariant lemma for claim C6: starting from any state in which name A is
unregistered and resolver f's recorded required list (if any) contains A, if every resolve
call for f in the remaining operations requires A and A is never successfully registered,
then f is never invoked during the run. -/
theorem c6_run_no_call (A : String) (f : Nat) :
    ∀ (ops : List Op) (st : DI),
    st.dependencies A = none →
    (∀ ds, (st.resolvers f).dependencies = some ds → A ∈ ds) →
    (∀ ds c, Op.res ds f c ∈ ops → A ∈ ds) →
    (∀ v, Op.reg A (some v) ∉ ops) →
    callsTo f (run st ops).2 = [] := by
  intro ops
  induction ops with
  | nil => intro st _ _ _ _; rfl
  | cons op rest ih =>
    intro st hA hdeps hres hreg
    have hres2 : ∀ ds c, Op.res ds f c ∈ rest → A ∈ ds :=
      fun ds c h => hres ds c (List.mem_cons_of_mem op h)
    have hreg2 : ∀ v, Op.reg A (some v) ∉ rest :=
      fun v h => hreg v (List.mem_cons_of_mem op h)
    have hrun : (run st (op :: rest)).2 = (step st op).2 ++ (run (step st op).1 rest).2 := rfl
    have hmain : callsTo f (step st op).2 = [] ∧
        (step st op).1.dependencies A = none ∧
        (∀ ds, ((step st op).1.resolvers f).dependencies = some ds → A ∈ ds) := by
      cases op with
      | reg k v =>
        by_cases hk : k.length = 0
        · have hst : step st (Op.reg k v) = (st, []) := by
            show (match register st k v with
                  | Except.ok p => p | Except.error _ => (st, [])) = (st, [])
            unfold register
            rw [if_pos hk]
          rw [hst]
          exact ⟨rfl, hA, hdeps⟩
        · cases v with
          | none =>
            have hst : step st (Op.reg k none) = (st, []) := by
              show (match register st k none with
                    | Except.ok p => p | Except.error _ => (st, [])) = (st, [])
              unfold register
              rw [if_neg hk]
            rw [hst]
            exact ⟨rfl, hA, hdeps⟩
          | some v0 =>
            have hkA : k ≠ A := fun h => hreg v0 (by rw [← h]; exact List.mem_cons_self _ _)
            have hst : step st (Op.reg k (some v0)) = injectList (regState st k v0) [k] := by
              show (match register st k (some v0) with
                    | Except.ok p => p | Except.error _ => (st, [])) = _
              unfold register
              rw [if_neg hk]
              rfl
            have hA1 : (regState st k v0).dependencies A = none := by
              show (if A = k then some v0 else st.dependencies A) = none
              rw [if_neg (fun h => hkA h.symm), hA]
            have hdeps1 : ∀ ds, ((regState st k v0).resolvers f).dependencies = some ds → A ∈ ds := by
              intro ds h
              apply hdeps
              rw [← h]
              show (st.resolvers f).dependencies = (resetStore st k v0 f).dependencies
              rw [resetStore_rdeps]
            have hnsat : ¬ Sat (regState st k v0).dependencies ((regState st k v0).resolvers f) :=
              notSat_of_mem_none _ _ A (presentValue_undef _ A hA1) hdeps1
            obtain ⟨hrs, hcalls⟩ := injectList_noSat [k] (regState st k v0) f hnsat
            rw [hst]
            refine ⟨hcalls, ?_, ?_⟩
            · rw [injectList_dependencies]
              exact hA1
            · intro ds h
              apply hdeps1 ds
              rw [← h, hrs]
      | res ds0 rid c =>
        by_cases hempty : ds0.isEmpty = true
        · have hst : step st (Op.res ds0 rid c) = (st, []) := by
            show (match resolve st ds0 rid c with
                  | Except.ok p => p | Except.error _ => (st, [])) = (st, [])
            unfold resolve
            rw [if_pos hempty]
          rw [hst]
          exact ⟨rfl, hA, hdeps⟩
        · cases c with
          | false =>
            have hst : step st (Op.res ds0 rid false) = (st, []) := by
              show (match resolve st ds0 rid false with
                    | Except.ok p => p | Except.error _ => (st, [])) = (st, [])
              unfold resolve
              rw [if_neg hempty]
              rfl
            rw [hst]
            exact ⟨rfl, hA, hdeps⟩
          | true =>
            have hst : step st (Op.res ds0 rid true) = injectList (attach st ds0 ds0 rid) ds0 := by
              show (match resolve st ds0 rid true with
                    | Except.ok p => p | Except.error _ => (st, [])) = _
              unfold resolve
              rw [if_neg hempty, if_pos rfl]
              unfold inject
              rw [if_neg hempty]
            have hdne : ds0 ≠ [] := fun h => hempty (by rw [h]; rfl)
            have hA1 : (attach st ds0 ds0 rid).dependencies A = none := by
              rw [attach_dependencies]
              exact hA
            have hdeps1 : ∀ ds2, ((attach st ds0 ds0 rid).resolvers f).dependencies = some ds2 → A ∈ ds2 := by
              intro ds2 h
              by_cases hrf : rid = f
              · subst hrf
                rw [attach_rdeps_rid ds0 rid ds0 st hdne] at h
                injection h with h2
                rw [← h2]
                exact hres ds0 true (List.mem_cons_self _ _)
              · rw [attach_rdeps_other ds0 rid ds0 st f (fun h2 => hrf h2.symm)] at h
                exact hdeps ds2 h
            have hnsat : ¬ Sat (attach st ds0 ds0 rid).dependencies ((attach st ds0 ds0 rid).resolvers f) :=
              notSat_of_mem_none _ _ A (presentValue_undef _ A hA1) hdeps1
            obtain ⟨hrs, hcalls⟩ := injectList_noSat ds0 (attach st ds0 ds0 rid) f hnsat
            rw [hst]
            refine ⟨hcalls, ?_, ?_⟩
            · rw [injectList_dependencies]
              exact hA1
            · intro ds2 h
              apply hdeps1 ds2
              rw [← h, hrs]
    rw [hrun, callsTo_append, hmain.1, ih (step st op).1 hmain.2.1 hmain.2.2 hres2 hreg2]
    rfl

/-- Claim C6: along any run from a fresh registry in which resolver f is only ever
registered with required lists containing A and A is never registered, f is never invoked
(so f cannot fire before both of its names are registered, whatever the interleaving);
moreover resolveOn([A,B], f) is always legal — it succeeds in every state, merely
deferring the invocation. -/
theorem c6_resolver_waits_for_all
    (ops : List Op) (A B : String) (f : Nat)
    (hres : ∀ ds c, Op.res ds f c ∈ ops → A ∈ ds)
    (hreg : ∀ v, Op.reg A (some v) ∉ ops) :
    callsTo f (run DI.empty ops).2 = [] ∧
    (∀ st : DI, ∃ p, resolve st [A, B] f true = Except.ok p) := by
  constructor
  · exact c6_run_no_call A f ops DI.empty rfl
      (fun ds h => by exact Option.noConfusion h) hres hreg
  · intro st
    exact ⟨injectList (attach st [A, B] [A, B] f) [A, B], rfl⟩

/-- Claim C6, witness at concrete input: resolveOn(["a","b"], 0); register("b", 1) — "a"
is never registered, and resolver 0 is never invoked. -/
theorem c6_resolver_waits_for_all_witness :
    callsTo 0 (run DI.empty c6Ops).2 = [] ∧
    (∀ st : DI, ∃ p, resolve st ["a", "b"] 0 true = Except.ok p) :=
  c6_resolver_waits_for_all c6Ops "a" "b" 0
    (by
      intro ds c h
      rcases List.mem_cons.mp h with h | h
      · cases h
        exact List.mem_cons_self _ _
      · rcases List.mem_cons.mp h with h | h
        · exact Op.noConfusion h
        · cases h)
    (by
      intro v h
      rcases List.mem_cons.mp h with h | h
      · exact Op.noConfusion h
      · rcases List.mem_cons.mp h with h | h
        · injection h with h1 h2
          exact absurd h1 (by decide)
        · cases h)

/-- Claim C7: a resolver f pending on both A and B whose whole required list is satisfied:
dispatch on A invokes it once, removes it from pending[A] only — pending[B] is untouched
and still holds f — and marks it resolved; a later dispatch on B finds it already
resolved and removes it from pending[B] without invoking it again. -/
theorem c7_two_phase_removal
    (st : DI) (A B : String) (f : Nat) (ds : List String) (V : String → JSValue)
    (hAB : A ≠ B)
    (hfA : f ∈ st.dependants A)
    (hfB : f ∈ st.dependants B)
    (hflag : (st.resolvers f).is_resolved = false)
    (hdeps : (st.resolvers f).dependencies = some ds)
    (hvals : ∀ n ∈ ds, st.dependencies n = some (V n) ∧ V n ≠ JSValue.vnull) :
    ∃ p, inject st [A] = Except.ok p ∧
      callsTo f p.2 = [Event.mk f (ds.map V) (ds.map (fun n => (n, V n)))] ∧
      f ∉ p.1.dependants A ∧
      p.1.dependants B = st.dependants B ∧
      (p.1.resolvers f).is_resolved = true ∧
      (∃ q, inject p.1 [B] = Except.ok q ∧ callsTo f q.2 = [] ∧ f ∉ q.1.dependants B) := by
  have hargs : collectArgs st.dependencies ds = ds.map V :=
    collectArgs_eq_map st.dependencies V ds hvals
  have hctx : collectCtx st.dependencies ds = ds.map (fun n => (n, V n)) :=
    collectCtx_eq_map st.dependencies V ds hvals
  obtain ⟨h1, h2, h3⟩ := injectResolvers_satOnce st.dependencies (st.dependants A)
    st.resolvers f ds hfA hflag hdeps (by rw [hargs, List.length_map])
  have hp1 : (injectList st [A]).1 = (injectStep st A).1 := by rw [injectList_single]
  have hp2 : (injectList st [A]).2 = (injectStep st A).2 := by rw [injectList_single]
  have hflag2 : ((injectStep st A).1.resolvers f).is_resolved = true := by
    rw [injectStep_resolvers, h1]
  have hpendB : (injectStep st A).1.dependants B = st.dependants B :=
    injectStep_dependants_ne st A B (Ne.symm hAB)
  refine ⟨injectList st [A], rfl, ?_, ?_, ?_, ?_, ?_⟩
  · rw [hp2, injectStep_events, h2, hargs, hctx]
  · rw [hp1, injectStep_dependants_self]
    intro hmem
    have hm2 := (List.mem_filter.mp hmem).2
    simp only [decide_eq_true_eq] at hm2
    exact hm2 h3
  · rw [hp1]
    exact hpendB
  · rw [hp1]
    exact hflag2
  · rw [hp1]
    obtain ⟨hr1, hr2, hr3⟩ := injectResolvers_resolved (injectStep st A).1.dependencies
      ((injectStep st A).1.dependants B) (injectStep st A).1.resolvers f hflag2
    refine ⟨injectList (injectStep st A).1 [B], rfl, ?_, ?_⟩
    · rw [injectList_single, injectStep_events]
      exact hr2
    · rw [injectList_single]
      show f ∉ (injectStep (injectStep st A).1 B).1.dependants B
      rw [injectStep_dependants_self]
      intro hmem
      have hm2 := (List.mem_filter.mp hmem).2
      simp only [decide_eq_true_eq] at hm2
      exact hm2 (hr3 (by rw [hpendB]; exact hfB))

/-- Claim C7, witness at a concrete registry (pre-seeded via the constructor options):
resolver 0 requires {"a","b"}, both values present, pending on both names. -/
theorem c7_two_phase_removal_witness :
    ∃ p, inject c7State ["a"] = Except.ok p ∧
      callsTo 0 p.2 =
        [Event.mk 0 (["a", "b"].map c7V) (["a", "b"].map (fun n => (n, c7V n)))] ∧
      0 ∉ p.1.dependants "a" ∧
      p.1.dependants "b" = c7State.dependants "b" ∧
      (p.1.resolvers 0).is_resolved = true ∧
      (∃ q, inject p.1 ["b"] = Except.ok q ∧ callsTo 0 q.2 = [] ∧ 0 ∉ q.1.dependants "b") :=
  c7_two_phase_removal c7State "a" "b" 0 ["a", "b"] c7V
    (by decide) (by decide) (by decide) rfl rfl (by decide)

theorem register_some_ok (st : DI) (k : String) (v : JSValue) (hk : ¬ k.length = 0) :
    register st k (some v) = Except.ok (injectList (regState st k v) [k]) := by
  unfold register
  rw [if_neg hk]
  rfl

theorem resolve_true_ok (st : DI) (ds : List String) (rid : Nat) (hne : ¬ ds.isEmpty = true) :
    resolve st ds rid true = Except.ok (injectList (attach st ds ds rid) ds) := by
  unfold resolve
  rw [if_neg hne, if_pos rfl]
  unfold inject
  rw [if_neg hne]

/-- Claim C8: register(name, value) fails with the InvalidArgument condition exactly when
the name is the empty string or the value is the absence-marker (undefined, modelled as
none); null is an accepted value (covered by the iff: some null is not none); a failing
call leaves the registry unchanged and invokes nothing. -/
theorem c8_register_precondition
    (st : DI) (k : String) (v : Option JSValue) :
    ((∃ e, register st k v = Except.error e) ↔ (k = "" ∨ v = none)) ∧
    ((k = "" ∨ v = none) → step st (Op.reg k v) = (st, [])) := by
  have herr2 : (k = "" ∨ v = none) → ∃ e, register st k v = Except.error e := by
    intro h
    by_cases hk : k.length = 0
    · refine ⟨"Dependency name/key has to be passed as a non-empty string", ?_⟩
      unfold register
      rw [if_pos hk]
    · rcases h with h | h
      · exact absurd (by rw [h]; rfl) hk
      · subst h
        refine ⟨"Dependency (value) is required", ?_⟩
        unfold register
        rw [if_neg hk]
  have herr : ∀ e, register st k v = Except.error e → (k = "" ∨ v = none) := by
    intro e he
    by_cases hk : k.length = 0
    · exact Or.inl (string_length_eq_zero.mp hk)
    · cases v with
      | none => exact Or.inr rfl
      | some v0 =>
        rw [register_some_ok st k v0 hk] at he
        exact Except.noConfusion he
  have hstep : (k = "" ∨ v = none) → step st (Op.reg k v) = (st, []) := by
    intro h
    obtain ⟨e, he⟩ := herr2 h
    show (match register st k v with
          | Except.ok p => p | Except.error _ => (st, [])) = (st, [])
    rw [he]
  exact ⟨⟨fun h => herr h.choose h.choose_spec, herr2⟩, hstep⟩

/-- Claim C8, witness at concrete input: register("k", undefined) fails and leaves a fresh
registry unchanged. -/
theorem c8_register_precondition_witness :
    step DI.empty (Op.reg "k" none) = (DI.empty, []) :=
  (c8_register_precondition DI.empty "k" none).2 (Or.inr rfl)

/-- Claim C9: resolveOn(names, resolver) fails with the InvalidArgument condition exactly
when names is the empty list or the resolver is not callable — in particular
resolveOn([], f) and resolveOn(["a"], non-callable) both fail — and a failing call leaves
the registry unchanged and invokes nothing. -/
theorem c9_resolve_precondition
    (st : DI) (ds : List String) (rid : Nat) (c : Bool) :
    ((∃ e, resolve st ds rid c = Except.error e) ↔ (ds = [] ∨ c = false)) ∧
    ((ds = [] ∨ c = false) → step st (Op.res ds rid c) = (st, [])) := by
  have herr2 : (ds = [] ∨ c = false) → ∃ e, resolve st ds rid c = Except.error e := by
    intro h
    by_cases hempty : ds.isEmpty = true
    · refine ⟨"Dependencies have to be a non-empty list of dependencies", ?_⟩
      unfold resolve
      rw [if_pos hempty]
    · rcases h with h | h
      · exact absurd (by rw [h]; rfl) hempty
      · subst h
        refine ⟨"Resolver has to be a function", ?_⟩
        unfold resolve
        rw [if_neg hempty]
        rfl
  have herr : ∀ e, resolve st ds rid c = Except.error e → (ds = [] ∨ c = false) := by
    intro e he
    by_cases hempty : ds.isEmpty = true
    · exact Or.inl (List.isEmpty_iff.mp hempty)
    · cases c with
      | true =>
        rw [resolve_true_ok st ds rid hempty] at he
        exact Except.noConfusion he
      | false => exact Or.inr rfl
  have hstep : (ds = [] ∨ c = false) → step st (Op.res ds rid c) = (st, []) := by
    intro h
    obtain ⟨e, he⟩ := herr2 h
    show (match resolve st ds rid c with
          | Except.ok p => p | Except.error _ => (st, [])) = (st, [])
    rw [he]
  exact ⟨⟨fun h => herr h.choose h.choose_spec, herr2⟩, hstep⟩

/-- Claim C9, witness at concrete input: resolveOn([], resolver 0) fails and leaves a
fresh registry unchanged. -/
theorem c9_resolve_precondition_witness :
    step DI.empty (Op.res [] 0 true) = (DI.empty, []) :=
  (c9_resolve_precondition DI.empty [] 0 true).2 (Or.inl rfl)

/-- Claim C10 (frame properties, in the re-entrance-free model): a successful
register(k, v) changes the dependencies map only at key k; dispatch (inject) never
changes the dependencies map at all, rewrites pending lists only for the dispatched
names, and every rewritten pending list is an order-preserving sublist of the previous
one. -/
theorem c10_frame_properties
    (st : DI) (k : String) (v : Option JSValue) (names : List String) :
    (∀ p, register st k v = Except.ok p → ∀ n, n ≠ k → p.1.dependencies n = st.dependencies n) ∧
    (∀ p, inject st names = Except.ok p →
      p.1.dependencies = st.dependencies ∧
      (∀ n, n ∉ names → p.1.dependants n = st.dependants n) ∧
      (∀ n, (p.1.dependants n).Sublist (st.dependants n))) := by
  constructor
  · intro p hp n hn
    by_cases hk : k.length = 0
    · unfold register at hp
      rw [if_pos hk] at hp
      exact Except.noConfusion hp
    · cases v with
      | none =>
        unfold register at hp
        rw [if_neg hk] at hp
        exact Except.noConfusion hp
      | some v0 =>
        rw [register_some_ok st k v0 hk] at hp
        injection hp with hp
        rw [← hp, injectList_dependencies]
        show (if n = k then some v0 else st.dependencies n) = st.dependencies n
        rw [if_neg hn]
  · intro p hp
    have hnames : ¬ (names.isEmpty = true) := by
      intro h
      unfold inject at hp
      rw [if_pos h] at hp
      exact Except.noConfusion hp
    have hpl : injectList st names = p := by
      unfold inject at hp
      rw [if_neg hnames] at hp
      injection hp
    rw [← hpl]
    exact ⟨injectList_dependencies names st,
      fun n hn => injectList_pending_ne names st n hn,
      fun n => injectList_pending_sublist names st n⟩

/-- Claim C10, witness at concrete input: register("a", 1) on a fresh registry leaves key
"b" untouched, and inject(["a"]) leaves pending["b"] untouched and turns pending["a"]
into a sublist of itself. -/
theorem c10_frame_properties_witness :
    c10reg.1.dependencies "b" = DI.empty.dependencies "b" ∧
    c10inj.1.dependants "b" = DI.empty.dependants "b" ∧
    (c10inj.1.dependants "a").Sublist (DI.empty.dependants "a") :=
  ⟨(c10_frame_properties DI.empty "a" (some (JSValue.vnum 1)) ["a"]).1 c10reg rfl "b" (by decide),
   ((c10_frame_properties DI.empty "a" (some (JSValue.vnum 1)) ["a"]).2 c10inj rfl).2.1 "b" (by decide),
   ((c10_frame_properties DI.empty "a" (some (JSValue.vnum 1)) ["a"]).2 c10inj rfl).2.2 "a"⟩

end DepInj
